import Mathlib

/-
Verification of the gstreamer-libde265 HEVC decoder bridge
(src/libde265-dec.c) against its natural-language specification.

The C source is shallowly embedded: byte buffers become `List Nat`
(each element a byte value, i.e. < 256), the stateful calls into the
libde265 engine (`de265_push_NAL`, `de265_push_data`, ...) become
accumulated lists of pushed payloads, and fallible paths return an
`Option Unit` error component.  Machine integers are modelled as `Nat`
or `Int` with explicit wrapping where the width matters.
-/

namespace Libde265Dec

/-- Reading one byte (`guint8` / `uint8_t`) out of a buffer at index
`i`; out-of-range reads (never performed by the checked code paths)
default to 0.  The `% 256` records that the C type is an 8-bit load. -/
def byteAt (data : List Nat) (i : Nat) : Nat :=
  data.getD i 0 % 256

/-- The byte range `[s, e)` of a buffer: what a `memcpy`/`de265_push_NAL`
of `e - s` bytes starting at offset `s` transmits. -/
def slice (data : List Nat) (s e : Nat) : List Nat :=
  (data.drop s).take (e - s)

/-- Truncation to 8 bits (a store through a `uint8_t *`). -/
def wrap8 (n : Nat) : Nat := n % 256

/-- Truncation to 16 bits (a store through a `uint16_t *`). -/
def wrap16 (n : Nat) : Nat := n % 65536

/-! ### Basic buffer lemmas -/

theorem getD_append_add (pre l : List Nat) (i : Nat) :
    (pre ++ l).getD (pre.length + i) 0 = l.getD i 0 := by
  simp [List.getD, List.getElem?_append_right (Nat.le_add_right pre.length i)]

theorem byteAt_append_add (pre l : List Nat) (i : Nat) :
    byteAt (pre ++ l) (pre.length + i) = byteAt l i := by
  unfold byteAt
  rw [getD_append_add]

theorem byteAt_append_lt (pre l : List Nat) (i : Nat) (h : i < pre.length) :
    byteAt (pre ++ l) i = byteAt pre i := by
  simp [byteAt, List.getD, List.getElem?_append_left h]

theorem slice_append (A x r : List Nat) :
    slice (A ++ (x ++ r)) A.length (A.length + x.length) = x := by
  simp [slice, List.drop_left, List.take_left]

/-! ## Bitstream mode detection (gst_libde265_dec_set_format, line 860)

`if (size > 3 && (data[0] || data[1] || data[2] > 1))` selects the
packetized ("hvcC") interpretation of the codec data; otherwise the
buffer is treated as a raw Annex-B byte stream. -/

inductive DecMode where
  | packetized
  | raw
deriving DecidableEq

def detectMode (data : List Nat) : DecMode :=
  if 3 < data.length ∧ (byteAt data 0 ≠ 0 ∨ byteAt data 1 ≠ 0 ∨ 1 < byteAt data 2) then
    DecMode.packetized
  else
    DecMode.raw

/-! ## Pixel format resolver (_gst_libde265_get_video_format, lines 303-394)

`bits_per_pixel` is a C `int`, modelled as `Int`.  The GStreamer ≥ 1.0
branch of the source is embedded (the pre-1.0 branch ignores the bit
depth entirely). -/

inductive De265Chroma where
  | mono
  | c420
  | c422
  | c444
  | other   -- any enum value outside the four known layouts (`default:`)
deriving DecidableEq

inductive GstVideoFormat where
  | UNKNOWN
  | GRAY8
  | I420
  | I420_10LE
  | Y42B
  | I422_10LE
  | Y444
  | Y444_10LE
deriving DecidableEq

def gst_libde265_get_video_format (chroma : De265Chroma) (bits : Int) : GstVideoFormat :=
  match chroma with
  | De265Chroma.mono => GstVideoFormat.GRAY8
  | De265Chroma.c420 =>
    if bits = 8 then GstVideoFormat.I420
    else if bits = 9 then GstVideoFormat.I420_10LE
    else if bits = 10 then GstVideoFormat.I420_10LE
    else if 10 < bits ∧ bits ≤ 16 then GstVideoFormat.I420_10LE
    else GstVideoFormat.UNKNOWN
  | De265Chroma.c422 =>
    if bits = 8 then GstVideoFormat.Y42B
    else if bits = 9 then GstVideoFormat.I422_10LE
    else if bits = 10 then GstVideoFormat.I422_10LE
    else if 10 < bits ∧ bits ≤ 16 then GstVideoFormat.I422_10LE
    else GstVideoFormat.UNKNOWN
  | De265Chroma.c444 =>
    if bits = 8 then GstVideoFormat.Y444
    else if bits = 9 then GstVideoFormat.Y444_10LE
    else if bits = 10 then GstVideoFormat.Y444_10LE
    else if 10 < bits ∧ bits ≤ 16 then GstVideoFormat.Y444_10LE
    else GstVideoFormat.UNKNOWN
  | De265Chroma.other => GstVideoFormat.UNKNOWN

end Libde265Dec

namespace Libde265Dec

/-- C4: The pixel-format resolver is a pure function of (chroma, depth):
monochrome always resolves to the 8-bit gray format (the only gray
format); 4:2:0 / 4:2:2 / 4:4:4 resolve to their 8-bit planar format at
depth 8 and to one and the same 10-bit-storage format for every depth
in [9, 16]; every other combination (depth < 8, depth > 16, unknown
chroma) resolves to the unknown ("unsupported") format. -/
theorem c4_video_format_table (b : Int) :
    gst_libde265_get_video_format De265Chroma.mono b = GstVideoFormat.GRAY8
    ∧ (gst_libde265_get_video_format De265Chroma.c420 8 = GstVideoFormat.I420
       ∧ gst_libde265_get_video_format De265Chroma.c422 8 = GstVideoFormat.Y42B
       ∧ gst_libde265_get_video_format De265Chroma.c444 8 = GstVideoFormat.Y444)
    ∧ (9 ≤ b ∧ b ≤ 16 →
        gst_libde265_get_video_format De265Chroma.c420 b = GstVideoFormat.I420_10LE
        ∧ gst_libde265_get_video_format De265Chroma.c422 b = GstVideoFormat.I422_10LE
        ∧ gst_libde265_get_video_format De265Chroma.c444 b = GstVideoFormat.Y444_10LE)
    ∧ (b < 8 ∨ 16 < b →
        gst_libde265_get_video_format De265Chroma.c420 b = GstVideoFormat.UNKNOWN
        ∧ gst_libde265_get_video_format De265Chroma.c422 b = GstVideoFormat.UNKNOWN
        ∧ gst_libde265_get_video_format De265Chroma.c444 b = GstVideoFormat.UNKNOWN)
    ∧ gst_libde265_get_video_format De265Chroma.other b = GstVideoFormat.UNKNOWN := by
  refine ⟨rfl, ⟨rfl, rfl, rfl⟩, ?_, ?_, rfl⟩
  · intro h
    refine ⟨?_, ?_, ?_⟩ <;>
      simp only [gst_libde265_get_video_format] <;>
      split_ifs <;> first | rfl | omega
  · intro h
    rcases h with h | h <;>
      refine ⟨?_, ?_, ?_⟩ <;>
        simp only [gst_libde265_get_video_format] <;>
        split_ifs <;> first | rfl | omega

/-- Witness for C4 at depth 12 (10-bit container band) and depth 7
(unsupported band). -/
theorem c4_video_format_table_witness :
    gst_libde265_get_video_format De265Chroma.c420 12 = GstVideoFormat.I420_10LE
    ∧ gst_libde265_get_video_format De265Chroma.c444 7 = GstVideoFormat.UNKNOWN :=
  ⟨((c4_video_format_table 12).2.2.1 ⟨by decide, by decide⟩).1,
   ((c4_video_format_table 7).2.2.2.1 (Or.inl (by decide))).2.2⟩

/-! ## Output frame rate negotiation (_gst_libde265_image_available, lines 769-779)

Runs on a geometry/format change.  `dec->fps_n` / `dec->fps_d` is the
configured override, `state->info.fps_n` / `fps_d` the host-provided
rate.  The source compares `fps_n / (float) fps_d > 1000`; for a
non-negative denominator that is the exact rational comparison
`1000 * fps_d < fps_n` (float rounding at the extreme boundary is not
modelled; no claim depends on it).  Result: the negotiated (fps_n,
fps_d) pair plus whether the too-high-framerate warning was emitted. -/

def image_available_fps (decN decD hostN hostD : Int) : (Int × Int) × Bool :=
  if 0 < decN then ((decN, decD), false)
  else if hostD = 0 ∨ 1000 * hostD < hostN then ((24, 1), true)
  else ((hostN, hostD), false)

/-- C8 counterexample: with no override configured and a host-provided
frame rate of 0/1 (a zero frame rate with a nonzero denominator), the
source keeps 0/1 and emits no warning — the claimed substitution of the
24/1 default does not happen. -/
theorem c8_zero_fps_counterexample :
    image_available_fps 0 1 0 1 = ((0, 1), false)
    ∧ image_available_fps 0 1 0 1 ≠ ((24, 1), true) := by
  constructor
  · rfl
  · decide

/-- C8 (amended): on a geometry/format renegotiation, a configured
positive override is used in all cases; otherwise the default 24/1 is
substituted, with a warning, exactly when the host rate is period-free
(denominator zero) or above 1000 frames per second; any other host
rate — including a zero rate 0/d with d ≠ 0 — is kept unchanged with
no warning. -/
theorem c8_framerate_default (decN decD hostN hostD : Int) :
    (0 < decN → image_available_fps decN decD hostN hostD = ((decN, decD), false))
    ∧ (decN ≤ 0 → (hostD = 0 ∨ 1000 * hostD < hostN) →
        image_available_fps decN decD hostN hostD = ((24, 1), true))
    ∧ (decN ≤ 0 → hostD ≠ 0 → hostN ≤ 1000 * hostD →
        image_available_fps decN decD hostN hostD = ((hostN, hostD), false)) := by
  refine ⟨?_, ?_, ?_⟩ <;> intros <;>
    simp only [image_available_fps] <;> split_ifs <;> first | rfl | omega

/-- Witness for C8 at a concrete implausibly-high host rate. -/
theorem c8_framerate_default_witness :
    image_available_fps 0 1 2000000 1 = ((24, 1), true) :=
  (c8_framerate_default 0 1 2000000 1).2.1 (by decide) (Or.inr (by decide))

/-! ## Plane copy / bit-depth conversion (gst_libde265_dec_handle_frame,
lines 1161-1246)

The four conversion branches are selected by comparing the plane's bit
depth with the output format's maximum bit depth (both C `int`s).  Each
branch computes `int shift` and applies `>>` or `<<` per sample; a
right shift by a negative amount is undefined behaviour in C and is
modelled as `none`. -/

/-- `*s >> shift` on a `uint16_t` load, `shift : int`.  Undefined
(`none`) for a negative shift amount. -/
def shrC (s : Nat) (sh : Int) : Option Nat :=
  if sh < 0 then none else some (wrap16 s >>> sh.toNat)

/-- `*s << shift` on a `uint8_t` load, `shift : int`.  Undefined
(`none`) for a negative shift amount. -/
def shlC (s : Nat) (sh : Int) : Option Nat :=
  if sh < 0 then none else some (wrap8 s <<< sh.toNat)

/-- One sample through the copy/convert branch chain of
`gst_libde265_dec_handle_frame` (lines 1169-1245): branch conditions
and shift amounts exactly as in the source; the final `else` is the
equal-depth `memcpy` byte copy. -/
def copySample (planeBits maxBits : Int) (s : Nat) : Option Nat :=
  if maxBits < planeBits ∧ 8 < maxBits then
    (shrC s (planeBits - maxBits)).map wrap16
  else if maxBits < planeBits ∧ maxBits = 8 then
    (shrC s (planeBits - maxBits)).map wrap8
  else if planeBits < maxBits ∧ 8 < planeBits then
    (shrC s (planeBits - maxBits)).map wrap16
  else if planeBits < maxBits ∧ planeBits = 8 then
    (shlC s (maxBits - planeBits)).map wrap16
  else
    some (wrap8 s)

/-- C6: of the two "plane depth below output depth, output depth > 8"
sub-cases, only the 8-bit-plane one left-shifts by the depth difference
and widens into a 16-bit sample; an intermediate-depth plane (depth 9
under a 10-bit output) instead hits `*s >> shift` with
`shift = 9 - 10 = -1`, a right shift by a negative amount — undefined
behaviour, not the claimed left shift. -/
theorem c6_lowdepth_shift (s : Nat) :
    copySample 8 10 s = some (wrap16 (wrap8 s <<< 2))
    ∧ copySample 9 10 s = none := by
  constructor <;> simp [copySample, shlC, shrC]

/-! ## Equal-depth plane copy and the widen/narrow round trip (C9)

The equal-depth branch (lines 1233-1245): one bulk `memcpy` of
`height * stride` bytes when `stride == width`, else a per-row
`memcpy (dest, src, width)`.  A plane is a list of rows, each holding
`stride` bytes.  Note that the C `width` is in pixels
(`de265_get_image_width`, the value negotiated as the video width at
line 1125) while `stride` and the memcpy count are in bytes: for an
8-bit plane a visible row is `width` bytes, but for a 16-bit-sample
plane it is `2 * width` bytes, of which the memcpy copies only
`width`. -/

def rowCopy (width : Nat) : List (List Nat) → List Nat
  | [] => []
  | r :: rest => r.take width ++ rowCopy width rest

def copyPlaneEqual (stride width : Nat) (rows : List (List Nat)) : List Nat :=
  if stride = width then rows.flatten
  else rowCopy width rows

theorem rowCopy_eq_flatten (width : Nat) (rows : List (List Nat)) :
    rowCopy width rows = (rows.map (fun r => r.take width)).flatten := by
  induction rows with
  | nil => rfl
  | cons r rest ih => simp [rowCopy, ih]

/-- C9 (amended): (a) the equal-depth copy path reproduces the first
`width` bytes of each `stride`-byte row exactly, in both the bulk-copy
and row-by-row cases — these are the visible row bytes when the plane
is 8-bit (1 byte per sample); for a deeper equal-depth plane a visible
row is `2 * width` bytes and only `width` of them are copied (see the
counterexample); (b) widening an 8-bit sample into a 16-bit sample of
the 10-bit container by the depth-difference left shift and then
narrowing a 10-bit sample back to 8 bits by the same right shift
reproduces the original value. -/
theorem c9_plane_copy_roundtrip :
    (∀ (stride width : Nat) (rows : List (List Nat)),
      width ≤ stride → (∀ r ∈ rows, r.length = stride) →
      copyPlaneEqual stride width rows = (rows.map (fun r => r.take width)).flatten)
    ∧ (∀ v : Nat, v < 256 →
        ∃ w, copySample 8 10 v = some w ∧ copySample 10 8 w = some v) := by
  constructor
  · intro stride width rows hws hlen
    unfold copyPlaneEqual
    split_ifs with hsw
    · have hmap : rows.map (fun r => r.take width) = rows := by
        conv_rhs => rw [← List.map_id rows]
        apply List.map_congr_left
        intro r hr
        rw [← hsw, ← hlen r hr]
        simp
      rw [hmap]
    · exact rowCopy_eq_flatten width rows
  · intro v hv
    refine ⟨v * 4, ?_, ?_⟩
    · have h1 : wrap8 v = v := Nat.mod_eq_of_lt (by omega)
      have h2 : v <<< 2 = v * 4 := by
        rw [Nat.shiftLeft_eq]
      have h3 : wrap16 (v * 4) = v * 4 := Nat.mod_eq_of_lt (by omega)
      simp [copySample, shlC, h1, h2, h3]
    · have h1 : wrap16 (v * 4) = v * 4 := Nat.mod_eq_of_lt (by omega)
      have h2 : (v * 4) >>> 2 = v := by
        rw [Nat.shiftRight_eq_div_pow]
        omega
      have h3 : wrap8 v = v := Nat.mod_eq_of_lt (by omega)
      simp [copySample, shrC, h1, h2, h3]

/-- C9 counterexample: an equal-depth 10-bit plane of pixel width 2
(so a visible row is 4 bytes — 2 samples of 2 bytes each) with a
4-byte stride: the per-row `memcpy (dest, src, width)` at line 1240
copies only `width` = 2 of the 4 visible row bytes, so the copy path
does not reproduce the visible row bytes unchanged, refuting the claim
for the >8-bit equal-depth planes it quantifies over. -/
theorem c9_highdepth_counterexample :
    copyPlaneEqual 4 2 [[1, 2, 3, 4]] = [1, 2]
    ∧ copyPlaneEqual 4 2 [[1, 2, 3, 4]] ≠ [1, 2, 3, 4] := by
  constructor
  · decide
  · decide

/-- Witness for C9 on a concrete 2-row plane (stride 3, width 2)
and the concrete 8-bit sample 200. -/
theorem c9_plane_copy_roundtrip_witness :
    copyPlaneEqual 3 2 [[1, 2, 3], [4, 5, 6]] = [1, 2, 4, 5]
    ∧ ∃ w, copySample 8 10 200 = some w ∧ copySample 10 8 w = some 200 :=
  ⟨(c9_plane_copy_roundtrip.1 3 2 [[1, 2, 3], [4, 5, 6]] (by decide)
      (by decide)).trans (by decide),
   c9_plane_copy_roundtrip.2 200 (by decide)⟩

end Libde265Dec

namespace Libde265Dec

/-- C3 counterexample input: a valid configuration record (version 0,
length-size field 2 encoding prefix size 3, zero parameter-set arrays)
whose first three bytes are 0x00 0x00 0x00. -/
def cfgStartcodeZero : List Nat :=
  [0, 0, 0] ++ List.replicate 18 0 ++ [2, 0]

/-- C3 (amended): for a codec-data buffer longer than 3 bytes the mode
is RawByteStream exactly when byte 0 = 0, byte 1 = 0 and byte 2 ≤ 1,
and Packetized otherwise. -/
theorem c3_mode_detection (data : List Nat) (h : 3 < data.length) :
    detectMode data = DecMode.raw ↔
      (byteAt data 0 = 0 ∧ byteAt data 1 = 0 ∧ byteAt data 2 ≤ 1) := by
  unfold detectMode
  split_ifs with hc
  · constructor
    · intro habs
      cases habs
    · intro hconj
      rcases hc.2 with h0 | h1 | h2 <;> omega
  · constructor
    · intro _
      have := not_and.mp hc h
      push_neg at this
      exact ⟨this.1, this.2.1, by omega⟩
    · intro _
      rfl

/-- Witness for C3 at the start-code prefix 0x00 0x00 0x01. -/
theorem c3_mode_detection_witness :
    detectMode [0, 0, 1, 5] = DecMode.raw :=
  (c3_mode_detection [0, 0, 1, 5] (by decide)).mpr (by decide)

end Libde265Dec


namespace Libde265Dec

/-! ## Zero-copy frame bridge (gst_libde265_dec_get_buffer, lines 441-586,
gst_libde265_dec_release_frame_ref, lines 430-439, and
gst_libde265_dec_release_buffer, lines 588-613)

The engine and host calls are modelled as an environment of their
outcomes; the observable effects on the FrameRef and the allocator
delegation become a trace of actions.  Only the `mapped` flag of the
FrameRef wrapper is tracked (`g_malloc0` zero-initialises it). -/

inductive CallbackAction where
  | allocRef        -- g_malloc0 of the FrameRef wrapper
  | mapFrame        -- successful gst_video_frame_map
  | unmap           -- gst_video_frame_unmap
  | unrefFrame      -- gst_video_codec_frame_unref (drop host-frame ref)
  | dropBuffer      -- gst_buffer_replace (&ref->buffer, NULL)
  | freeRef         -- g_free of the wrapper
  | defaultGet      -- delegation to the engine's default get_buffer
  | defaultRelease  -- delegation to the engine's default release_buffer
deriving DecidableEq

structure GstLibde265FrameRef where
  mapped : Bool
deriving DecidableEq

/-- Lines 430-439: unmap if mapped, then drop the host-frame reference,
drop the buffer reference, and free the wrapper. -/
def gst_libde265_dec_release_frame_ref (ref : GstLibde265FrameRef) :
    List CallbackAction :=
  (if ref.mapped then [CallbackAction.unmap] else [])
    ++ [CallbackAction.unrefFrame, CallbackAction.dropBuffer, CallbackAction.freeRef]

/-- Lines 588-613: a picture whose plane-0 user data carries no FrameRef
is handed to the engine's default release routine; otherwise the
FrameRef is torn down. -/
def gst_libde265_dec_release_buffer (userdata : Option GstLibde265FrameRef) :
    List CallbackAction :=
  match userdata with
  | none => [CallbackAction.defaultRelease]
  | some ref => gst_libde265_dec_release_frame_ref ref

/-- GST_VIDEO_FORMAT_INFO_BITS of the formats the resolver can return
(component depth from the GStreamer format table). -/
def formatBits : GstVideoFormat → Int
  | GstVideoFormat.UNKNOWN => 0
  | GstVideoFormat.GRAY8 => 8
  | GstVideoFormat.I420 => 8
  | GstVideoFormat.I420_10LE => 10
  | GstVideoFormat.Y42B => 8
  | GstVideoFormat.I422_10LE => 10
  | GstVideoFormat.Y444 => 8
  | GstVideoFormat.Y444_10LE => 10

/-- Outcomes of the external calls made by `gst_libde265_dec_get_buffer`,
in source order, plus the picture descriptor fields it reads. -/
structure GetBufferEnv where
  frameFound : Bool      -- GET_FRAME returned non-NULL
  specWidth : Nat        -- spec->width
  specAlignment : Nat    -- spec->alignment (engine guarantees ≥ 1)
  specHeight : Nat       -- spec->height
  visibleWidth : Nat     -- spec->visible_width
  visibleHeight : Nat    -- spec->visible_height
  chroma : De265Chroma
  bits0 : Int            -- per-plane bits per pixel
  bits1 : Int
  bits2 : Int
  imageAvailOk : Bool    -- _gst_libde265_image_available returned GST_FLOW_OK
  allocOk : Bool         -- ALLOC_OUTPUT_FRAME returned GST_FLOW_OK
  mapOk : Bool           -- gst_video_frame_map succeeded
  stride0 : Nat          -- plane-0 stride of the mapped frame
  pstride0 : Nat         -- plane-0 component pixel stride
  compHeight0 : Nat      -- plane-0 component height
  plane0Aligned : Bool   -- plane 0 stride and base address aligned
  plane1Aligned : Bool
  plane2Aligned : Bool

/-- `(spec->width + spec->alignment - 1) / spec->alignment * spec->alignment`
(line 465). -/
def alignedWidth (w a : Nat) : Nat := (w + a - 1) / a * a

/-- Lines 441-586: the zero-copy allocation callback.  Returns the
FrameRef left as the picture's plane-0 user data (none when any check
fails and the engine's default allocator is used instead, which
installs its own user data) together with the trace of actions. -/
def gst_libde265_dec_get_buffer (e : GetBufferEnv) :
    Option GstLibde265FrameRef × List CallbackAction :=
  if e.frameFound = false then (none, [CallbackAction.defaultGet])
  else if alignedWidth e.specWidth e.specAlignment ≠ e.visibleWidth
      ∨ e.specHeight ≠ e.visibleHeight then
    (none, [CallbackAction.defaultGet])
  else if e.chroma ≠ De265Chroma.mono
      ∧ (e.bits0 ≠ e.bits1 ∨ e.bits0 ≠ e.bits2 ∨ e.bits1 ≠ e.bits2) then
    (none, [CallbackAction.defaultGet])
  else if gst_libde265_get_video_format e.chroma e.bits0 = GstVideoFormat.UNKNOWN then
    (none, [CallbackAction.defaultGet])
  else if formatBits (gst_libde265_get_video_format e.chroma e.bits0) ≠ e.bits0 then
    (none, [CallbackAction.defaultGet])
  else if e.imageAvailOk = false then (none, [CallbackAction.defaultGet])
  else if e.allocOk = false then (none, [CallbackAction.defaultGet])
  else if e.mapOk = false then
    (none, CallbackAction.allocRef
      :: gst_libde265_dec_release_frame_ref ⟨false⟩ ++ [CallbackAction.defaultGet])
  else if e.stride0 < alignedWidth e.specWidth e.specAlignment * e.pstride0 then
    (none, CallbackAction.allocRef :: CallbackAction.mapFrame
      :: gst_libde265_dec_release_frame_ref ⟨true⟩ ++ [CallbackAction.defaultGet])
  else if e.compHeight0 < e.specHeight then
    (none, CallbackAction.allocRef :: CallbackAction.mapFrame
      :: gst_libde265_dec_release_frame_ref ⟨true⟩ ++ [CallbackAction.defaultGet])
  else if (e.plane0Aligned && e.plane1Aligned && e.plane2Aligned) = false then
    (none, CallbackAction.allocRef :: CallbackAction.mapFrame
      :: gst_libde265_dec_release_frame_ref ⟨true⟩ ++ [CallbackAction.defaultGet])
  else
    (some ⟨true⟩, [CallbackAction.allocRef, CallbackAction.mapFrame])

/-- Every run of the allocation callback ends in one of four outcomes:
fallback before any FrameRef exists, teardown of an unmapped FrameRef
(map failure), teardown of a mapped FrameRef (post-map check failure),
or zero-copy success. -/
theorem get_buffer_cases (e : GetBufferEnv) :
    gst_libde265_dec_get_buffer e = (none, [CallbackAction.defaultGet])
    ∨ gst_libde265_dec_get_buffer e
        = (none, [CallbackAction.allocRef, CallbackAction.unrefFrame,
                  CallbackAction.dropBuffer, CallbackAction.freeRef,
                  CallbackAction.defaultGet])
    ∨ gst_libde265_dec_get_buffer e
        = (none, [CallbackAction.allocRef, CallbackAction.mapFrame,
                  CallbackAction.unmap, CallbackAction.unrefFrame,
                  CallbackAction.dropBuffer, CallbackAction.freeRef,
                  CallbackAction.defaultGet])
    ∨ gst_libde265_dec_get_buffer e
        = (some ⟨true⟩, [CallbackAction.allocRef, CallbackAction.mapFrame]) := by
  unfold gst_libde265_dec_get_buffer
  by_cases h1 : e.frameFound = false
  · rw [if_pos h1]; exact Or.inl rfl
  rw [if_neg h1]
  by_cases h2 : alignedWidth e.specWidth e.specAlignment ≠ e.visibleWidth
      ∨ e.specHeight ≠ e.visibleHeight
  · rw [if_pos h2]; exact Or.inl rfl
  rw [if_neg h2]
  by_cases h3 : e.chroma ≠ De265Chroma.mono
      ∧ (e.bits0 ≠ e.bits1 ∨ e.bits0 ≠ e.bits2 ∨ e.bits1 ≠ e.bits2)
  · rw [if_pos h3]; exact Or.inl rfl
  rw [if_neg h3]
  by_cases h4 : gst_libde265_get_video_format e.chroma e.bits0 = GstVideoFormat.UNKNOWN
  · rw [if_pos h4]; exact Or.inl rfl
  rw [if_neg h4]
  by_cases h5 : formatBits (gst_libde265_get_video_format e.chroma e.bits0) ≠ e.bits0
  · rw [if_pos h5]; exact Or.inl rfl
  rw [if_neg h5]
  by_cases h6 : e.imageAvailOk = false
  · rw [if_pos h6]; exact Or.inl rfl
  rw [if_neg h6]
  by_cases h7 : e.allocOk = false
  · rw [if_pos h7]; exact Or.inl rfl
  rw [if_neg h7]
  by_cases h8 : e.mapOk = false
  · rw [if_pos h8]
    exact Or.inr (Or.inl (by simp [gst_libde265_dec_release_frame_ref]))
  rw [if_neg h8]
  by_cases h9 : e.stride0 < alignedWidth e.specWidth e.specAlignment * e.pstride0
  · rw [if_pos h9]
    exact Or.inr (Or.inr (Or.inl (by simp [gst_libde265_dec_release_frame_ref])))
  rw [if_neg h9]
  by_cases h10 : e.compHeight0 < e.specHeight
  · rw [if_pos h10]
    exact Or.inr (Or.inr (Or.inl (by simp [gst_libde265_dec_release_frame_ref])))
  rw [if_neg h10]
  by_cases h11 : (e.plane0Aligned && e.plane1Aligned && e.plane2Aligned) = false
  · rw [if_pos h11]
    exact Or.inr (Or.inr (Or.inl (by simp [gst_libde265_dec_release_frame_ref])))
  rw [if_neg h11]
  exact Or.inr (Or.inr (Or.inr rfl))

/-- The full per-picture trace: the allocation callback followed by the
single `release_buffer` call the engine makes for that picture. -/
def getBufferTrace (e : GetBufferEnv) : List CallbackAction :=
  (gst_libde265_dec_get_buffer e).2
    ++ gst_libde265_dec_release_buffer (gst_libde265_dec_get_buffer e).1

/-- C5: over the per-picture callback lifecycle (one `get_buffer`, one
`release_buffer`): at most one FrameRef wrapper is created and it is
freed exactly once; the buffer is mapped at most once and unmapped
exactly as many times as it was mapped (the unmap happening before the
wrapper is discarded); a successful zero-copy allocation leaves a
mapped FrameRef whose release unmaps, drops the host-frame and buffer
references and frees the wrapper, in that order; and a picture without
a FrameRef is delegated to the engine's default release routine,
touching no FrameRef. -/
theorem c5_frame_ref_lifecycle (e : GetBufferEnv) :
    (getBufferTrace e).count CallbackAction.allocRef ≤ 1
    ∧ (getBufferTrace e).count CallbackAction.freeRef
        = (getBufferTrace e).count CallbackAction.allocRef
    ∧ (getBufferTrace e).count CallbackAction.mapFrame ≤ 1
    ∧ (getBufferTrace e).count CallbackAction.unmap
        = (getBufferTrace e).count CallbackAction.mapFrame
    ∧ (∀ ref, (gst_libde265_dec_get_buffer e).1 = some ref →
        ref.mapped = true
        ∧ gst_libde265_dec_release_buffer (gst_libde265_dec_get_buffer e).1
            = [CallbackAction.unmap, CallbackAction.unrefFrame,
               CallbackAction.dropBuffer, CallbackAction.freeRef])
    ∧ ((gst_libde265_dec_get_buffer e).1 = none →
        gst_libde265_dec_release_buffer (gst_libde265_dec_get_buffer e).1
          = [CallbackAction.defaultRelease]) := by
  rcases get_buffer_cases e with h | h | h | h <;>
    unfold getBufferTrace <;> rw [h] <;>
    simp [gst_libde265_dec_release_buffer, gst_libde265_dec_release_frame_ref,
      List.count_cons, List.count_append]

/-- A concrete all-checks-pass environment for the C5 witness. -/
def envZeroCopy : GetBufferEnv where
  frameFound := true
  specWidth := 16
  specAlignment := 16
  specHeight := 16
  visibleWidth := 16
  visibleHeight := 16
  chroma := De265Chroma.c420
  bits0 := 8
  bits1 := 8
  bits2 := 8
  imageAvailOk := true
  allocOk := true
  mapOk := true
  stride0 := 16
  pstride0 := 1
  compHeight0 := 16
  plane0Aligned := true
  plane1Aligned := true
  plane2Aligned := true

/-- Witness for C5: in the all-checks-pass environment the returned
FrameRef is mapped and its release performs unmap, unref, drop, free in
order. -/
theorem c5_frame_ref_lifecycle_witness :
    (⟨true⟩ : GstLibde265FrameRef).mapped = true
    ∧ gst_libde265_dec_release_buffer (gst_libde265_dec_get_buffer envZeroCopy).1
        = [CallbackAction.unmap, CallbackAction.unrefFrame,
           CallbackAction.dropBuffer, CallbackAction.freeRef] :=
  (c5_frame_ref_lifecycle envZeroCopy).2.2.2.2.1 ⟨true⟩ (by decide)

end Libde265Dec

namespace Libde265Dec

/-! ## Packetized NAL demuxing (gst_libde265_dec_handle_frame, lines 999-1023)

The while loop over a mapped input chunk: as long as a full
`length_size`-byte prefix remains, assemble the big-endian NAL length
into the C `int` `nal_size`, error out with *Overflow in input data* if
the payload would run past the chunk end, otherwise push the payload
(with the chunk's `pts` passed to every `de265_push_NAL` call) and
advance.  The result is the list of (payload, pts) pushes plus how the
loop stopped: cleanly (`none`), with the overflow error, or by running
into undefined behaviour of the `int` length assembly. -/

inductive DemuxStop where
  | overflowErr     -- GST_ELEMENT_ERROR Overflow in input data (lines 1009-1011)
  | undefinedShift  -- signed overflow in nal_size << 8: undefined behaviour
deriving DecidableEq

/-- `for (i = 0; i < n; i++) nal_size = (nal_size << 8) | start_data[i]`
(lines 1005-1007).  `nal_size` is a C `int`: the accumulator starts at 0
and stays non-negative, and `<< 8` is undefined as soon as the result
would exceed INT_MAX — i.e. once `acc * 256 ≥ 2^31`, reachable only
with `length_size` 4 and a first prefix byte ≥ 0x80 — modelled as
`none`.  Below that bound `| b` on a `uint8_t` operand is `* 256 + b`
and the result stays below 2^31. -/
def readBE (chunk : List Nat) : Nat → Nat → Nat → Option Nat
  | _, acc, 0 => some acc
  | pos, acc, n + 1 =>
    if 2 ^ 31 ≤ acc * 256 then none
    else readBE chunk (pos + 1) (acc * 256 + byteAt chunk pos) n

/-- The demux loop, indexed by the current offset `start`.  A `none`
length assembly is the undefined-behaviour stop: in practice the
source's `nal_size` goes negative there, the bounds check at line 1008
passes and `de265_push_NAL` receives a negative length — no defined
continuation exists, so the model stops with `undefinedShift`.
`length_size` is 1-4 in every reachable state (initialised to 4, set to
`(data[21] & 3) + 1`); the `0 < N` conjunct records that the loop body
is only meaningful then (with `N = 0` the C loop would not advance). -/
def handleFramePacketized (N pts : Nat) (chunk : List Nat) (start : Nat) :
    List (List Nat × Nat) × Option DemuxStop :=
  if h : 0 < N ∧ start + N ≤ chunk.length then
    if readBE chunk start 0 N = none then ([], some DemuxStop.undefinedShift)
    else if chunk.length < start + N + (readBE chunk start 0 N).getD 0 then
      ([], some DemuxStop.overflowErr)
    else
      let r := handleFramePacketized N pts chunk
        (start + N + (readBE chunk start 0 N).getD 0)
      ((slice chunk (start + N) (start + N + (readBE chunk start 0 N).getD 0), pts)
        :: r.1, r.2)
  else ([], none)
termination_by chunk.length - start
decreasing_by omega

/-- One whole chunk through the packetized branch of
`gst_libde265_dec_handle_frame`. -/
def handle_frame_packetized (N pts : Nat) (chunk : List Nat) :
    List (List Nat × Nat) × Option DemuxStop :=
  handleFramePacketized N pts chunk 0

/-- The encoding of a payload list as an exact concatenation of
[`N`-byte big-endian length][payload] records. -/
def beBytes : Nat → Nat → List Nat
  | 0, _ => []
  | n + 1, v => beBytes n (v / 256) ++ [v % 256]

def encChunk (N : Nat) : List (List Nat) → List Nat
  | [] => []
  | p :: ps => beBytes N p.length ++ p ++ encChunk N ps

/-! ### Lemmas about the length-prefix encoding -/

theorem byteAt_append_zero (pre l : List Nat) :
    byteAt (pre ++ l) pre.length = byteAt l 0 := by
  have h := byteAt_append_add pre l 0
  simpa using h

theorem beBytes_length (n v : Nat) : (beBytes n v).length = n := by
  induction n generalizing v with
  | zero => rfl
  | succ n ih => simp [beBytes, ih]

theorem beBytes_lt (n : Nat) : ∀ v, ∀ b ∈ beBytes n v, b < 256 := by
  induction n with
  | zero =>
      intro v b hb
      simp [beBytes] at hb
  | succ n ih =>
      intro v b hb
      simp only [beBytes, List.mem_append, List.mem_singleton] at hb
      rcases hb with hb | hb
      · exact ih (v / 256) b hb
      · omega

theorem beBytes_foldl (n : Nat) : ∀ v acc : Nat,
    (beBytes n v).foldl (fun a b => a * 256 + b) acc = acc * 256 ^ n + v % 256 ^ n := by
  induction n with
  | zero =>
      intro v acc
      simp [beBytes, Nat.mod_one]
  | succ n ih =>
      intro v acc
      rw [beBytes, List.foldl_append, ih (v / 256) acc]
      have hm : v % 256 ^ (n + 1) = v % 256 + 256 * (v / 256 % 256 ^ n) := by
        rw [Nat.pow_succ, Nat.mul_comm, Nat.mod_mul]
      simp only [List.foldl_cons, List.foldl_nil]
      rw [hm, Nat.pow_succ]
      ring

/-- The big-endian accumulator never decreases. -/
theorem foldl_be_ge (l : List Nat) :
    ∀ acc : Nat, acc ≤ l.foldl (fun a b => a * 256 + b) acc := by
  induction l with
  | nil =>
      intro acc
      exact Nat.le_refl acc
  | cons b rest ih =>
      intro acc
      simp only [List.foldl_cons]
      exact le_trans (by omega) (ih (acc * 256 + b))

theorem readBE_append (bs : List Nat) :
    ∀ (pre suf : List Nat) (acc : Nat), (∀ b ∈ bs, b < 256) →
      bs.foldl (fun a b => a * 256 + b) acc < 2 ^ 31 →
      readBE (pre ++ (bs ++ suf)) pre.length acc bs.length
        = some (bs.foldl (fun a b => a * 256 + b) acc) := by
  induction bs with
  | nil =>
      intro pre suf acc _ _
      rfl
  | cons b rest ih =>
      intro pre suf acc hb hlt
      have hb0 : b < 256 := hb b (List.mem_cons_self b rest)
      have hbyte : byteAt (pre ++ (b :: rest ++ suf)) pre.length = b := by
        rw [List.cons_append, byteAt_append_zero]
        simp [byteAt]
        omega
      simp only [List.foldl_cons] at hlt
      have hge : acc * 256 + b ≤ rest.foldl (fun a b => a * 256 + b) (acc * 256 + b) :=
        foldl_be_ge rest (acc * 256 + b)
      simp only [List.length_cons, readBE, hbyte,
        if_neg (by omega : ¬ 2 ^ 31 ≤ acc * 256)]
      rw [List.cons_append, List.append_cons pre b (rest ++ suf)]
      have hlen : pre.length + 1 = (pre ++ [b]).length := by simp
      rw [hlen, ih (pre ++ [b]) suf (acc * 256 + b)
        (fun x hx => hb x (List.mem_cons_of_mem b hx)) hlt]
      simp

theorem slice_append_at (A x r : List Nat) (s e : Nat)
    (hs : s = A.length) (he : e = A.length + x.length) :
    slice (A ++ (x ++ r)) s e = x := by
  subst hs
  subst he
  exact slice_append A x r

end Libde265Dec

namespace Libde265Dec

/-- Running the demux loop at the start of an exact record
concatenation pushes every payload in order (each with the chunk's
`pts`) and then continues at the first offset past the concatenation. -/
theorem handleFrame_encChunk (N pts : Nat) (ps : List (List Nat)) :
    ∀ (pre tail : List Nat), 0 < N →
      (∀ p ∈ ps, p.length < 256 ^ N ∧ p.length < 2 ^ 31) →
      handleFramePacketized N pts (pre ++ (encChunk N ps ++ tail)) pre.length
        = ((ps.map fun p => (p, pts))
            ++ (handleFramePacketized N pts (pre ++ (encChunk N ps ++ tail))
                  (pre.length + (encChunk N ps).length)).1,
           (handleFramePacketized N pts (pre ++ (encChunk N ps ++ tail))
              (pre.length + (encChunk N ps).length)).2) := by
  induction ps with
  | nil =>
      intro pre tail _ _
      simp [encChunk]
  | cons p ps ih =>
      intro pre tail hN hw
      have hp : p.length < 256 ^ N ∧ p.length < 2 ^ 31 := hw p (List.mem_cons_self p ps)
      -- canonical right-associated shape of the chunk
      have hD : pre ++ (encChunk N (p :: ps) ++ tail)
          = pre ++ (beBytes N p.length ++ (p ++ (encChunk N ps ++ tail))) := by
        simp [encChunk, List.append_assoc]
      rw [hD]
      set D := pre ++ (beBytes N p.length ++ (p ++ (encChunk N ps ++ tail))) with hDdef
      have hlenD : D.length
          = pre.length + (N + (p.length + ((encChunk N ps).length + tail.length))) := by
        simp [hDdef, beBytes_length]
      -- the assembled length is defined and is the payload length
      have hfold : (beBytes N p.length).foldl (fun a b => a * 256 + b) 0 = p.length := by
        rw [beBytes_foldl, Nat.zero_mul, Nat.zero_add, Nat.mod_eq_of_lt hp.1]
      have hns : readBE D pre.length 0 N = some p.length := by
        have h1 := readBE_append (beBytes N p.length) pre (p ++ (encChunk N ps ++ tail)) 0
          (beBytes_lt N p.length) (by rw [hfold]; exact hp.2)
        rw [beBytes_length, hfold] at h1
        rw [hDdef]
        exact h1
      -- loop guard holds, the assembly is defined, the overflow check fails
      have hguard : 0 < N ∧ pre.length + N ≤ D.length := ⟨hN, by omega⟩
      rw [handleFramePacketized, dif_pos hguard, hns]
      rw [if_neg (by simp : ¬ (some p.length = none))]
      simp only [Option.getD_some]
      rw [if_neg (by omega)]
      -- the pushed slice is the payload
      have hsl : slice D (pre.length + N) (pre.length + N + p.length) = p := by
        have h2 := slice_append_at (pre ++ beBytes N p.length) p (encChunk N ps ++ tail)
          (pre.length + N) (pre.length + N + p.length)
          (by simp only [List.length_append, beBytes_length])
          (by simp only [List.length_append, beBytes_length])
        have h3 : pre ++ beBytes N p.length ++ (p ++ (encChunk N ps ++ tail)) = D := by
          simp [hDdef, List.append_assoc]
        rw [h3] at h2
        exact h2
      rw [hsl]
      -- apply the induction hypothesis at the next offset
      have hpre : pre.length + N + p.length = (pre ++ beBytes N p.length ++ p).length := by
        simp only [List.length_append, beBytes_length]
      have hD2 : D = (pre ++ beBytes N p.length ++ p) ++ (encChunk N ps ++ tail) := by
        simp [hDdef, List.append_assoc]
      have hih := ih (pre ++ beBytes N p.length ++ p) tail hN
        (fun q hq => hw q (List.mem_cons_of_mem p hq))
      rw [← hD2] at hih
      rw [hpre, hih]
      -- reassemble: lists and the final offset
      have hoff : (pre ++ beBytes N p.length ++ p).length + (encChunk N ps).length
          = pre.length + (encChunk N (p :: ps)).length := by
        simp [encChunk, beBytes_length]
        omega
      rw [hoff]
      simp

end Libde265Dec

namespace Libde265Dec

/-- The demux loop signals the overflow error only at an offset where a
complete length prefix is readable, its assembly is defined, and it
claims more bytes than remain. -/
theorem handleFrame_err_over (N pts : Nat) (chunk : List Nat) :
    ∀ start,
      (handleFramePacketized N pts chunk start).2 = some DemuxStop.overflowErr →
      ∃ s v, s + N ≤ chunk.length ∧ readBE chunk s 0 N = some v
        ∧ chunk.length < s + N + v :=
  handleFramePacketized.induct N pts chunk
    (fun start =>
      (handleFramePacketized N pts chunk start).2 = some DemuxStop.overflowErr →
      ∃ s v, s + N ≤ chunk.length ∧ readBE chunk s 0 N = some v
        ∧ chunk.length < s + N + v)
    (fun s h hub => by
      intro hx
      rw [handleFramePacketized, dif_pos h, if_pos hub] at hx
      simp at hx)
    (fun s h hub hov => by
      intro _
      match hv : readBE chunk s 0 N with
      | none => exact absurd hv hub
      | some v =>
        refine ⟨s, v, h.2, hv, ?_⟩
        rw [hv] at hov
        simpa using hov)
    (fun s h hub hov ih => by
      intro hx
      rw [handleFramePacketized, dif_pos h, if_neg hub, if_neg hov] at hx
      exact ih hx)
    (fun s h => by
      intro hx
      rw [handleFramePacketized, dif_neg h] at hx
      simp at hx)

/-- Every push of the demux loop carries the chunk's `pts` argument. -/
theorem handleFrame_pts_all (N pts : Nat) (chunk : List Nat) :
    ∀ start, ∀ x ∈ (handleFramePacketized N pts chunk start).1, x.2 = pts :=
  handleFramePacketized.induct N pts chunk
    (fun start => ∀ x ∈ (handleFramePacketized N pts chunk start).1, x.2 = pts)
    (fun s h hub => by
      intro x hx
      rw [handleFramePacketized, dif_pos h, if_pos hub] at hx
      simp at hx)
    (fun s h hub hov => by
      intro x hx
      rw [handleFramePacketized, dif_pos h, if_neg hub, if_pos hov] at hx
      simp at hx)
    (fun s h hub hov ih => by
      intro x hx
      rw [handleFramePacketized, dif_pos h, if_neg hub, if_neg hov] at hx
      simp only [List.mem_cons] at hx
      rcases hx with rfl | hx
      · rfl
      · exact ih x hx)
    (fun s h => by
      intro x hx
      rw [handleFramePacketized, dif_neg h] at hx
      simp at hx)

/-- Demuxing an exact concatenation of records pushes exactly the
payloads and stops cleanly. -/
theorem handle_frame_enc_exact (N pts : Nat) (ps : List (List Nat))
    (hN : 0 < N) (hw : ∀ p ∈ ps, p.length < 256 ^ N ∧ p.length < 2 ^ 31) :
    handle_frame_packetized N pts (encChunk N ps)
      = ((ps.map fun p => (p, pts)), none) := by
  unfold handle_frame_packetized
  have h := handleFrame_encChunk N pts ps [] [] hN hw
  simp only [List.append_nil, List.nil_append, List.length_nil] at h
  rw [h]
  rw [handleFramePacketized, dif_neg (by omega)]
  simp

/-- Demuxing records followed by an over-claiming length prefix (whose
assembly stays in the defined range of the C int) pushes exactly the
leading payloads and then raises the overflow error. -/
theorem handle_frame_enc_over (N pts : Nat) (ps : List (List Nat)) (m : Nat)
    (rest : List Nat) (hN : 0 < N)
    (hw : ∀ p ∈ ps, p.length < 256 ^ N ∧ p.length < 2 ^ 31)
    (hm : m < 256 ^ N) (hm31 : m < 2 ^ 31) (hr : rest.length < m) :
    handle_frame_packetized N pts (encChunk N ps ++ (beBytes N m ++ rest))
      = ((ps.map fun p => (p, pts)), some DemuxStop.overflowErr) := by
  unfold handle_frame_packetized
  have h := handleFrame_encChunk N pts ps [] (beBytes N m ++ rest) hN hw
  simp only [List.nil_append, List.length_nil, Nat.zero_add] at h
  rw [h]
  set E := encChunk N ps with hE
  set D := E ++ (beBytes N m ++ rest) with hD
  have hlenD : D.length = E.length + (N + rest.length) := by
    simp [hD, beBytes_length]
  have hfold : (beBytes N m).foldl (fun a b => a * 256 + b) 0 = m := by
    rw [beBytes_foldl, Nat.zero_mul, Nat.zero_add, Nat.mod_eq_of_lt hm]
  have hns : readBE D E.length 0 N = some m := by
    have h1 := readBE_append (beBytes N m) E rest 0 (beBytes_lt N m)
      (by rw [hfold]; exact hm31)
    rw [beBytes_length, hfold] at h1
    rw [hD]
    exact h1
  rw [handleFramePacketized, dif_pos ⟨hN, by omega⟩, hns,
    if_neg (by simp : ¬ (some m = none))]
  simp only [Option.getD_some]
  rw [if_pos (by omega)]
  simp

end Libde265Dec

namespace Libde265Dec

/-- C2 counterexample: with the default length-prefix size 4, the
4-byte chunk 0x80 0x00 0x00 0x00 is one record whose length prefix
claims 2^31 bytes — more than the 0 bytes remaining — yet the source
does not raise the overflow error: assembling the prefix executes
`nal_size << 8` past INT_MAX (signed overflow, undefined behaviour; in
practice `nal_size` goes negative, the bounds check at line 1008 passes
and `de265_push_NAL` is called with a negative length). -/
theorem c2_overflow_counterexample :
    handle_frame_packetized 4 7 [128, 0, 0, 0]
      = ([], some DemuxStop.undefinedShift)
    ∧ handle_frame_packetized 4 7 [128, 0, 0, 0]
      ≠ ([], some DemuxStop.overflowErr) := by
  have h : handle_frame_packetized 4 7 [128, 0, 0, 0]
      = ([], some DemuxStop.undefinedShift) := by
    simp [handle_frame_packetized, handleFramePacketized, readBE, byteAt]
  refine ⟨h, ?_⟩
  rw [h]
  simp

/-- C2 (amended): in Packetized mode with length-prefix size N in 1..4,
restricted to length prefixes assembling to values below 2^31 — the
range where the source's `int` length arithmetic is defined, automatic
for N ≤ 3 — a chunk that is an exact concatenation of
[N-byte big-endian length][payload] records demuxes to exactly the
original payloads, unchanged and in order, with no error; appending a
record whose length prefix claims more bytes than remain makes the
demuxer push exactly the leading intact payloads and then raise the
fatal overflow error, with no byte of the malformed tail pushed; and
conversely the overflow error is raised only at an offset where a
readable length prefix assembles (without overflow) to more bytes than
remain.  A prefix assembling to 2^31 or more instead drives the
source's `nal_size << 8` into signed overflow — undefined behaviour,
and no overflow error. -/
theorem c2_packetized_demux (N pts : Nat) (ps : List (List Nat)) (m : Nat)
    (rest : List Nat) (hN1 : 1 ≤ N) (_hN4 : N ≤ 4)
    (hw : ∀ p ∈ ps, p.length < 256 ^ N ∧ p.length < 2 ^ 31) :
    handle_frame_packetized N pts (encChunk N ps)
      = ((ps.map fun p => (p, pts)), none)
    ∧ (m < 256 ^ N → m < 2 ^ 31 → rest.length < m →
        handle_frame_packetized N pts (encChunk N ps ++ (beBytes N m ++ rest))
          = ((ps.map fun p => (p, pts)), some DemuxStop.overflowErr))
    ∧ (∀ chunk : List Nat,
        (handle_frame_packetized N pts chunk).2 = some DemuxStop.overflowErr →
        ∃ s v, s + N ≤ chunk.length ∧ readBE chunk s 0 N = some v
          ∧ chunk.length < s + N + v) :=
  ⟨handle_frame_enc_exact N pts ps hN1 hw,
   fun hm hm31 hr => handle_frame_enc_over N pts ps m rest hN1 hw hm hm31 hr,
   fun chunk => handleFrame_err_over N pts chunk 0⟩

/-- Witness for C2: a two-record chunk demuxes exactly; a chunk whose
second record claims 5 bytes with only 2 remaining raises the overflow
error after pushing only the first payload. -/
theorem c2_packetized_demux_witness :
    handle_frame_packetized 2 42 (encChunk 2 [[7, 8], [9]])
      = ([([7, 8], 42), ([9], 42)], none)
    ∧ handle_frame_packetized 2 42 (encChunk 2 [[7, 8]] ++ (beBytes 2 5 ++ [1, 2]))
      = ([([7, 8], 42)], some DemuxStop.overflowErr) := by
  constructor
  · rw [(c2_packetized_demux 2 42 [[7, 8], [9]] 5 [1, 2] (by decide) (by decide)
      (by decide)).1]
    rfl
  · rw [(c2_packetized_demux 2 42 [[7, 8]] 5 [1, 2] (by decide) (by decide)
      (by decide)).2.1 (by decide) (by decide) (by decide)]
    rfl

/-- C10 (implicit): trailing bytes after the last complete record that
are at least one but fewer than the length-prefix size are silently
discarded — the loop guard fails, no NAL is pushed for them and no
error is raised. -/
theorem c10_trailing_bytes_discarded (N pts : Nat) (ps : List (List Nat))
    (t : List Nat) (hN1 : 1 ≤ N) (_hN4 : N ≤ 4)
    (hw : ∀ p ∈ ps, p.length < 256 ^ N ∧ p.length < 2 ^ 31)
    (_ht1 : 1 ≤ t.length) (htN : t.length < N) :
    handle_frame_packetized N pts (encChunk N ps ++ t)
      = ((ps.map fun p => (p, pts)), none) := by
  unfold handle_frame_packetized
  have h := handleFrame_encChunk N pts ps [] t hN1 hw
  simp only [List.nil_append, List.length_nil, Nat.zero_add] at h
  rw [h]
  rw [handleFramePacketized, dif_neg (by simp only [List.length_append]; omega)]
  simp

/-- Witness for C10: one complete record followed by a single trailing
byte (prefix size 2) demuxes to the payload alone, with no error. -/
theorem c10_trailing_bytes_discarded_witness :
    handle_frame_packetized 2 42 (encChunk 2 [[7, 8]] ++ [9])
      = ([([7, 8], 42)], none) := by
  rw [c10_trailing_bytes_discarded 2 42 [[7, 8]] [9] (by decide) (by decide)
    (by decide) (by decide) (by decide)]
  rfl

/-- C7 counterexample: a packetized chunk holding two NAL units, pushed
with chunk timestamp 42 — the source passes the unchanged `pts`
variable to `de265_push_NAL` on every loop iteration, so the second
NAL unit is also pushed with timestamp 42, not without a timestamp. -/
theorem c7_pts_counterexample :
    handle_frame_packetized 2 42 [0, 1, 7, 0, 1, 9]
      = ([([7], 42), ([9], 42)], none)
    ∧ ((handle_frame_packetized 2 42 [0, 1, 7, 0, 1, 9]).1.getD 1 ([], 0)).2 = 42 := by
  constructor <;>
    simp [handle_frame_packetized, handleFramePacketized, readBE, byteAt, slice]

/-- C7 (amended): in Packetized mode every NAL unit demuxed from a
chunk — the first and all subsequent ones — is pushed to the engine
with the chunk's presentation timestamp attached. -/
theorem c7_pts_on_every_nal (N pts : Nat) (chunk : List Nat) :
    ∀ x ∈ (handle_frame_packetized N pts chunk).1, x.2 = pts :=
  handleFrame_pts_all N pts chunk 0

/-- Witness for C7 on the second NAL unit of a concrete chunk. -/
theorem c7_pts_on_every_nal_witness : (([9], 42) : List Nat × Nat).2 = 42 :=
  c7_pts_on_every_nal 2 42 [0, 1, 7, 0, 1, 9] ([9], 42)
    (by simp [handle_frame_packetized, handleFramePacketized, readBE, byteAt, slice])

end Libde265Dec

namespace Libde265Dec

/-! ## Configuration record ("hvcC") parsing
(gst_libde265_dec_set_format, lines 863-909)

Entered only for records longer than 22 bytes: byte 21's low 2 bits
plus 1 give the NAL length-prefix size, byte 22 the number of
parameter-set arrays; each array is 1 ignored header byte, a 2-byte
big-endian unit count, then per unit a 2-byte big-endian length and
that many payload bytes, each payload pushed individually via
`de265_push_NAL`.  Any computed end index past the record length is the
fatal buffer-underrun error (`return FALSE`), leaving the units pushed
so far with the engine.  Results: (length-prefix size, pushed units,
error). -/

/-- The inner `for (j = 0; j < nal_count; j++)` loop (lines 884-907),
returning the units pushed, the final offset and the error flag. -/
def parseUnits (data : List Nat) : Nat → Nat → List (List Nat) × Nat × Option Unit
  | pos, 0 => ([], pos, none)
  | pos, j + 1 =>
    if data.length < pos + 2 then ([], pos, some ())
    else
      let nal_size := byteAt data pos * 256 + byteAt data (pos + 1)
      if data.length < pos + 2 + nal_size then ([], pos, some ())
      else
        let r := parseUnits data (pos + 2 + nal_size) j
        (slice data (pos + 2) (pos + 2 + nal_size) :: r.1, r.2.1, r.2.2)

/-- The outer `for (i = 0; i < num_param_sets; i++)` loop
(lines 873-908). -/
def parseArrays (data : List Nat) : Nat → Nat → List (List Nat) × Option Unit
  | _, 0 => ([], none)
  | pos, i + 1 =>
    if data.length < pos + 3 then ([], some ())
    else
      let nal_count := byteAt data (pos + 1) * 256 + byteAt data (pos + 2)
      let r := parseUnits data (pos + 3) nal_count
      match r.2.2 with
      | some e => (r.1, some e)
      | none =>
        let rest := parseArrays data r.2.1 i
        (r.1 ++ rest.1, rest.2)

/-- The packetized branch of `gst_libde265_dec_set_format` on a mapped
codec-data buffer: for records of more than 22 bytes, read the
length-prefix size (`(data[21] & 3) + 1`; `& 3` is `% 4`) and the array
count (`data[22]`) and walk the arrays; shorter records keep the
session's previous length-prefix size and parse nothing. -/
def set_format_config (prevLen : Nat) (data : List Nat) :
    Nat × List (List Nat) × Option Unit :=
  if 22 < data.length then
    let r := parseArrays data 23 (byteAt data 22)
    (byteAt data 21 % 4 + 1, r.1, r.2)
  else (prevLen, [], none)

/-! ### Record encoders (a record built from its parameter-set arrays) -/

/-- One unit: 2-byte big-endian length then the payload. -/
def encUnit (u : List Nat) : List Nat :=
  u.length / 256 :: u.length % 256 :: u

def encUnits : List (List Nat) → List Nat
  | [] => []
  | u :: us => encUnit u ++ encUnits us

/-- One array: header byte (NAL type), 2-byte big-endian unit count,
then the units. -/
def encArray (t : Nat) (us : List (List Nat)) : List Nat :=
  t :: us.length / 256 :: us.length % 256 :: encUnits us

def encArrays : List (Nat × List (List Nat)) → List Nat
  | [] => []
  | a :: rest => encArray a.1 a.2 ++ encArrays rest

/-- The parameter-set units of the arrays, flattened in array order
then unit order. -/
def flatUnits : List (Nat × List (List Nat)) → List (List Nat)
  | [] => []
  | a :: rest => a.2 ++ flatUnits rest

/-- A whole configuration record: a 22-byte header (bytes 0-21), the
array count byte, then the arrays. -/
def encRecord (hdr : List Nat) (arrays : List (Nat × List (List Nat))) : List Nat :=
  hdr ++ arrays.length :: encArrays arrays

end Libde265Dec

namespace Libde265Dec

/-- Parsing the exact encoding of a unit list pushes every unit in
order and stops just past it with no error. -/
theorem parseUnits_exact (us : List (List Nat)) :
    ∀ (pre suf : List Nat), (∀ u ∈ us, u.length < 65536) →
      parseUnits (pre ++ (encUnits us ++ suf)) pre.length us.length
        = (us, pre.length + (encUnits us).length, none) := by
  induction us with
  | nil =>
      intro pre suf _
      simp [encUnits, parseUnits]
  | cons u us ih =>
      intro pre suf hw
      have hu : u.length < 65536 := hw u (List.mem_cons_self u us)
      have hD : pre ++ (encUnits (u :: us) ++ suf)
          = pre ++ (u.length / 256 :: u.length % 256 :: (u ++ (encUnits us ++ suf))) := by
        simp [encUnits, encUnit, List.append_assoc]
      rw [hD]
      set D := pre ++ (u.length / 256 :: u.length % 256 :: (u ++ (encUnits us ++ suf)))
        with hDdef
      have hlenD : D.length
          = pre.length + (2 + (u.length + ((encUnits us).length + suf.length))) := by
        simp [hDdef]
        omega
      have hb1 : byteAt D pre.length = u.length / 256 := by
        rw [hDdef, byteAt_append_zero]
        simp [byteAt]
        omega
      have hb2 : byteAt D (pre.length + 1) = u.length % 256 := by
        rw [hDdef, byteAt_append_add pre _ 1]
        simp [byteAt]
      have hns : byteAt D pre.length * 256 + byteAt D (pre.length + 1) = u.length := by
        rw [hb1, hb2]
        omega
      rw [List.length_cons, parseUnits]
      rw [if_neg (by omega), hns, if_neg (by omega)]
      have hsl : slice D (pre.length + 2) (pre.length + 2 + u.length) = u := by
        have h2 := slice_append_at (pre ++ [u.length / 256, u.length % 256]) u
          (encUnits us ++ suf) (pre.length + 2) (pre.length + 2 + u.length)
          (by simp) (by simp)
        have h3 : pre ++ [u.length / 256, u.length % 256] ++ (u ++ (encUnits us ++ suf))
            = D := by
          simp [hDdef]
        rw [h3] at h2
        exact h2
      rw [hsl]
      have hpre : pre.length + 2 + u.length
          = (pre ++ [u.length / 256, u.length % 256] ++ u).length := by
        simp
        omega
      have hD2 : D = (pre ++ [u.length / 256, u.length % 256] ++ u)
          ++ (encUnits us ++ suf) := by
        simp [hDdef]
      have hih := ih (pre ++ [u.length / 256, u.length % 256] ++ u) suf
        (fun q hq => hw q (List.mem_cons_of_mem u hq))
      rw [← hD2] at hih
      rw [hpre, hih]
      have hoff : (pre ++ [u.length / 256, u.length % 256] ++ u).length
            + (encUnits us).length
          = pre.length + (encUnits (u :: us)).length := by
        simp [encUnits, encUnit]
        omega
      rw [hoff]

end Libde265Dec

namespace Libde265Dec

/-- Parsing a truncated unit-list encoding pushes some leading complete
units — never a byte of the cut unit — and reports the underrun
error. -/
theorem parseUnits_trunc (us : List (List Nat)) :
    ∀ (pre : List Nat) (t : Nat), t < (encUnits us).length →
      (∀ u ∈ us, u.length < 65536) →
      ∃ us1 us2 q, us1 ++ us2 = us ∧
        parseUnits (pre ++ (encUnits us).take t) pre.length us.length
          = (us1, q, some ()) := by
  induction us with
  | nil =>
      intro pre t ht _
      simp [encUnits] at ht
  | cons u us ih =>
      intro pre t ht hw
      have hu : u.length < 65536 := hw u (List.mem_cons_self u us)
      have hE : encUnits (u :: us)
          = u.length / 256 :: u.length % 256 :: (u ++ encUnits us) := by
        simp [encUnits, encUnit]
      have hElen : (encUnits (u :: us)).length
          = 2 + (u.length + (encUnits us).length) := by
        rw [hE]
        simp
        omega
      by_cases hc1 : t < 2
      · -- the cut lands in the 2-byte unit length field
        refine ⟨[], u :: us, pre.length, rfl, ?_⟩
        have hlen : (pre ++ (encUnits (u :: us)).take t).length = pre.length + t := by
          simp [List.length_take]
          omega
        rw [List.length_cons, parseUnits, if_pos (by omega)]
      · by_cases hc2 : t < 2 + u.length
        · -- the cut lands inside the unit payload
          refine ⟨[], u :: us, pre.length, rfl, ?_⟩
          obtain ⟨k, rfl⟩ : ∃ k, t = k + 2 := ⟨t - 2, by omega⟩
          have htake : (encUnits (u :: us)).take (k + 2)
              = u.length / 256 :: u.length % 256 :: u.take k := by
            rw [hE]
            simp [List.take_append_eq_append_take]
            rw [show k - u.length = 0 from by omega]
            simp
          rw [htake]
          set D := pre ++ (u.length / 256 :: u.length % 256 :: u.take k) with hDdef
          have hlenD : D.length = pre.length + (2 + k) := by
            simp [hDdef, List.length_take]
            omega
          have hb1 : byteAt D pre.length = u.length / 256 := by
            rw [hDdef, byteAt_append_zero]
            simp [byteAt]
            omega
          have hb2 : byteAt D (pre.length + 1) = u.length % 256 := by
            rw [hDdef, byteAt_append_add pre _ 1]
            simp [byteAt]
          have hns : byteAt D pre.length * 256 + byteAt D (pre.length + 1)
              = u.length := by
            rw [hb1, hb2]
            omega
          rw [List.length_cons, parseUnits, if_neg (by omega), hns,
            if_pos (by omega)]
        · -- the first unit is intact; recurse past it
          obtain ⟨t', rfl⟩ : ∃ t', t = t' + 2 + u.length := ⟨t - 2 - u.length, by omega⟩
          have ht' : t' < (encUnits us).length := by omega
          have htake : (encUnits (u :: us)).take (t' + 2 + u.length)
              = u.length / 256 :: u.length % 256 :: (u ++ (encUnits us).take t') := by
            rw [hE]
            rw [show t' + 2 + u.length = t' + u.length + 1 + 1 from by omega]
            rw [List.take_succ_cons, List.take_succ_cons,
              List.take_append_eq_append_take]
            rw [List.take_of_length_le (by omega : u.length ≤ t' + u.length)]
            rw [show t' + u.length - u.length = t' from by omega]
          rw [htake]
          set D := pre ++ (u.length / 256 :: u.length % 256
            :: (u ++ (encUnits us).take t')) with hDdef
          have hlent' : ((encUnits us).take t').length = t' := by
            simp [List.length_take]
            omega
          have hlenD : D.length = pre.length + (2 + (u.length + t')) := by
            simp [hDdef, hlent']
            omega
          have hb1 : byteAt D pre.length = u.length / 256 := by
            rw [hDdef, byteAt_append_zero]
            simp [byteAt]
            omega
          have hb2 : byteAt D (pre.length + 1) = u.length % 256 := by
            rw [hDdef, byteAt_append_add pre _ 1]
            simp [byteAt]
          have hns : byteAt D pre.length * 256 + byteAt D (pre.length + 1)
              = u.length := by
            rw [hb1, hb2]
            omega
          rw [List.length_cons, parseUnits, if_neg (by omega), hns,
            if_neg (by omega)]
          have hsl : slice D (pre.length + 2) (pre.length + 2 + u.length) = u := by
            have h2 := slice_append_at (pre ++ [u.length / 256, u.length % 256]) u
              ((encUnits us).take t') (pre.length + 2) (pre.length + 2 + u.length)
              (by simp) (by simp)
            have h3 : pre ++ [u.length / 256, u.length % 256]
                ++ (u ++ (encUnits us).take t') = D := by
              simp [hDdef]
            rw [h3] at h2
            exact h2
          rw [hsl]
          have hpre : pre.length + 2 + u.length
              = (pre ++ [u.length / 256, u.length % 256] ++ u).length := by
            simp
            omega
          have hD2 : D = (pre ++ [u.length / 256, u.length % 256] ++ u)
              ++ (encUnits us).take t' := by
            simp [hDdef]
          obtain ⟨us1, us2, q, hsplit, hrec⟩ :=
            ih (pre ++ [u.length / 256, u.length % 256] ++ u) t' ht'
              (fun v hv => hw v (List.mem_cons_of_mem u hv))
          rw [← hD2] at hrec
          rw [hpre, hrec]
          exact ⟨u :: us1, us2, q, by rw [← hsplit]; rfl, rfl⟩

end Libde265Dec

namespace Libde265Dec

/-- Walking the exact encoding of the parameter-set arrays pushes all
units in array order then unit order, with no error. -/
theorem parseArrays_exact (as : List (Nat × List (List Nat))) :
    ∀ (pre suf : List Nat),
      (∀ a ∈ as, a.2.length < 65536 ∧ ∀ u ∈ a.2, u.length < 65536) →
      parseArrays (pre ++ (encArrays as ++ suf)) pre.length as.length
        = (flatUnits as, none) := by
  induction as with
  | nil =>
      intro pre suf _
      simp [encArrays, flatUnits, parseArrays]
  | cons a as ih =>
      intro pre suf hw
      obtain ⟨tp, us⟩ := a
      have hcount : us.length < 65536 :=
        (hw (tp, us) (List.mem_cons_self (tp, us) as)).1
      have hunits : ∀ u ∈ us, u.length < 65536 :=
        (hw (tp, us) (List.mem_cons_self (tp, us) as)).2
      have hD : pre ++ (encArrays ((tp, us) :: as) ++ suf)
          = pre ++ (tp :: us.length / 256 :: us.length % 256
              :: (encUnits us ++ (encArrays as ++ suf))) := by
        simp [encArrays, encArray, List.append_assoc]
      rw [hD]
      set D := pre ++ (tp :: us.length / 256 :: us.length % 256
        :: (encUnits us ++ (encArrays as ++ suf))) with hDdef
      have hlenD : D.length = pre.length
          + (3 + ((encUnits us).length + ((encArrays as).length + suf.length))) := by
        simp [hDdef]
        omega
      have hc1 : byteAt D (pre.length + 1) = us.length / 256 := by
        rw [hDdef, byteAt_append_add pre _ 1]
        simp [byteAt]
        omega
      have hc2 : byteAt D (pre.length + 2) = us.length % 256 := by
        rw [hDdef, byteAt_append_add pre _ 2]
        simp [byteAt]
      have hcnt : byteAt D (pre.length + 1) * 256 + byteAt D (pre.length + 2)
          = us.length := by
        rw [hc1, hc2]
        omega
      rw [List.length_cons, parseArrays, if_neg (by omega), hcnt]
      have hD2 : D = (pre ++ [tp, us.length / 256, us.length % 256])
          ++ (encUnits us ++ (encArrays as ++ suf)) := by
        simp [hDdef]
      have hpos3 : pre.length + 3
          = (pre ++ [tp, us.length / 256, us.length % 256]).length := by
        simp
      have hun := parseUnits_exact us (pre ++ [tp, us.length / 256, us.length % 256])
        (encArrays as ++ suf) hunits
      rw [← hD2] at hun
      rw [hpos3]
      simp only [hun]
      have hpos' : (pre ++ [tp, us.length / 256, us.length % 256]).length
          + (encUnits us).length
          = (pre ++ (tp :: us.length / 256 :: us.length % 256 :: encUnits us)).length := by
        simp
        omega
      have hD3 : D = (pre ++ (tp :: us.length / 256 :: us.length % 256 :: encUnits us))
          ++ (encArrays as ++ suf) := by
        simp [hDdef]
      have har := ih (pre ++ (tp :: us.length / 256 :: us.length % 256 :: encUnits us))
        suf (fun b hb => hw b (List.mem_cons_of_mem (tp, us) hb))
      rw [← hD3] at har
      rw [hpos', har]
      simp [flatUnits]

end Libde265Dec

namespace Libde265Dec

/-- Walking a truncated array encoding pushes some leading complete
units — never a byte of the cut unit — and reports the underrun
error. -/
theorem parseArrays_trunc (as : List (Nat × List (List Nat))) :
    ∀ (pre : List Nat) (t : Nat), t < (encArrays as).length →
      (∀ a ∈ as, a.2.length < 65536 ∧ ∀ u ∈ a.2, u.length < 65536) →
      ∃ us1 us2, us1 ++ us2 = flatUnits as ∧
        parseArrays (pre ++ (encArrays as).take t) pre.length as.length
          = (us1, some ()) := by
  induction as with
  | nil =>
      intro pre t ht _
      simp [encArrays] at ht
  | cons a as ih =>
      intro pre t ht hw
      obtain ⟨tp, us⟩ := a
      have hcount : us.length < 65536 :=
        (hw (tp, us) (List.mem_cons_self (tp, us) as)).1
      have hunits : ∀ u ∈ us, u.length < 65536 :=
        (hw (tp, us) (List.mem_cons_self (tp, us) as)).2
      have hE : encArrays ((tp, us) :: as)
          = tp :: us.length / 256 :: us.length % 256
              :: (encUnits us ++ encArrays as) := by
        simp [encArrays, encArray]
      have hElen : (encArrays ((tp, us) :: as)).length
          = 3 + ((encUnits us).length + (encArrays as).length) := by
        rw [hE]
        simp
        omega
      by_cases hc1 : t < 3
      · -- the cut lands in the 3-byte array header
        refine ⟨[], flatUnits ((tp, us) :: as), by simp, ?_⟩
        have hlen : (pre ++ (encArrays ((tp, us) :: as)).take t).length
            = pre.length + t := by
          simp [List.length_take]
          omega
        rw [List.length_cons, parseArrays, if_pos (by omega)]
      · by_cases hc2 : t < 3 + (encUnits us).length
        · -- the cut lands inside this array's unit list
          obtain ⟨k, rfl⟩ : ∃ k, t = k + 3 := ⟨t - 3, by omega⟩
          have hk : k < (encUnits us).length := by omega
          have htake : (encArrays ((tp, us) :: as)).take (k + 3)
              = tp :: us.length / 256 :: us.length % 256
                  :: (encUnits us).take k := by
            rw [hE]
            rw [show k + 3 = k + 1 + 1 + 1 from by omega]
            rw [List.take_succ_cons, List.take_succ_cons, List.take_succ_cons,
              List.take_append_eq_append_take]
            rw [show k - (encUnits us).length = 0 from by omega]
            simp
          rw [htake]
          set D := pre ++ (tp :: us.length / 256 :: us.length % 256
            :: (encUnits us).take k) with hDdef
          have hlenk : ((encUnits us).take k).length = k := by
            simp [List.length_take]
            omega
          have hlenD : D.length = pre.length + (3 + k) := by
            simp [hDdef, hlenk]
            omega
          have hc1b : byteAt D (pre.length + 1) = us.length / 256 := by
            rw [hDdef, byteAt_append_add pre _ 1]
            simp [byteAt]
            omega
          have hc2b : byteAt D (pre.length + 2) = us.length % 256 := by
            rw [hDdef, byteAt_append_add pre _ 2]
            simp [byteAt]
          have hcnt : byteAt D (pre.length + 1) * 256 + byteAt D (pre.length + 2)
              = us.length := by
            rw [hc1b, hc2b]
            omega
          rw [List.length_cons, parseArrays, if_neg (by omega), hcnt]
          have hD2 : D = (pre ++ [tp, us.length / 256, us.length % 256])
              ++ (encUnits us).take k := by
            simp [hDdef]
          have hpos3 : pre.length + 3
              = (pre ++ [tp, us.length / 256, us.length % 256]).length := by
            simp
          obtain ⟨us1, us2, q, hsplit, hrec⟩ :=
            parseUnits_trunc us (pre ++ [tp, us.length / 256, us.length % 256]) k
              hk hunits
          rw [← hD2] at hrec
          rw [hpos3]
          simp only [hrec]
          exact ⟨us1, us2 ++ flatUnits as, by simp [flatUnits, ← hsplit], rfl⟩
        · -- this array is intact; recurse past it
          obtain ⟨t', rfl⟩ : ∃ t', t = t' + 3 + (encUnits us).length :=
            ⟨t - 3 - (encUnits us).length, by omega⟩
          have ht' : t' < (encArrays as).length := by omega
          have htake : (encArrays ((tp, us) :: as)).take (t' + 3 + (encUnits us).length)
              = tp :: us.length / 256 :: us.length % 256
                  :: (encUnits us ++ (encArrays as).take t') := by
            rw [hE]
            rw [show t' + 3 + (encUnits us).length
              = t' + (encUnits us).length + 1 + 1 + 1 from by omega]
            rw [List.take_succ_cons, List.take_succ_cons, List.take_succ_cons,
              List.take_append_eq_append_take]
            rw [List.take_of_length_le
              (by omega : (encUnits us).length ≤ t' + (encUnits us).length)]
            rw [show t' + (encUnits us).length - (encUnits us).length = t'
              from by omega]
          rw [htake]
          set D := pre ++ (tp :: us.length / 256 :: us.length % 256
            :: (encUnits us ++ (encArrays as).take t')) with hDdef
          have hlent' : ((encArrays as).take t').length = t' := by
            simp [List.length_take]
            omega
          have hlenD : D.length = pre.length + (3 + ((encUnits us).length + t')) := by
            simp [hDdef, hlent']
            omega
          have hc1b : byteAt D (pre.length + 1) = us.length / 256 := by
            rw [hDdef, byteAt_append_add pre _ 1]
            simp [byteAt]
            omega
          have hc2b : byteAt D (pre.length + 2) = us.length % 256 := by
            rw [hDdef, byteAt_append_add pre _ 2]
            simp [byteAt]
          have hcnt : byteAt D (pre.length + 1) * 256 + byteAt D (pre.length + 2)
              = us.length := by
            rw [hc1b, hc2b]
            omega
          rw [List.length_cons, parseArrays, if_neg (by omega), hcnt]
          have hD2 : D = (pre ++ [tp, us.length / 256, us.length % 256])
              ++ (encUnits us ++ (encArrays as).take t') := by
            simp [hDdef]
          have hpos3 : pre.length + 3
              = (pre ++ [tp, us.length / 256, us.length % 256]).length := by
            simp
          have hun := parseUnits_exact us (pre ++ [tp, us.length / 256, us.length % 256])
            ((encArrays as).take t') hunits
          rw [← hD2] at hun
          rw [hpos3]
          simp only [hun]
          have hpos' : (pre ++ [tp, us.length / 256, us.length % 256]).length
              + (encUnits us).length
              = (pre ++ (tp :: us.length / 256 :: us.length % 256
                  :: encUnits us)).length := by
            simp
            omega
          have hD3 : D = (pre ++ (tp :: us.length / 256 :: us.length % 256
              :: encUnits us)) ++ (encArrays as).take t' := by
            simp [hDdef]
          obtain ⟨us1, us2, hsplit, hrec⟩ :=
            ih (pre ++ (tp :: us.length / 256 :: us.length % 256 :: encUnits us)) t'
              ht' (fun b hb => hw b (List.mem_cons_of_mem (tp, us) hb))
          rw [← hD3] at hrec
          rw [hpos', hrec]
          exact ⟨us ++ us1, us2, by simp [flatUnits, ← hsplit], rfl⟩

end Libde265Dec

namespace Libde265Dec

/-- C1: on the structured (Packetized) path, parsing a configuration
record built from parameter-set arrays pushes to the engine exactly the
encoded parameter-set NAL units, in array order and within each array
in unit order, each with the byte length given by its 2-byte big-endian
length field, the length-prefix size read as byte 21's low 2 bits plus
1 and the array count as byte 22; and parsing any truncation of that
record (cutting an array header, a unit header or a unit payload short)
reports the fatal buffer-underrun error after pushing only complete
leading units — no byte of the partial unit. -/
theorem c1_config_record_parsing (prev : Nat) (hdr : List Nat)
    (arrays : List (Nat × List (List Nat)))
    (hh : hdr.length = 22) (hb : ∀ b ∈ hdr, b < 256)
    (ha : arrays.length < 256)
    (hw : ∀ a ∈ arrays, a.2.length < 65536 ∧ ∀ u ∈ a.2, u.length < 65536) :
    set_format_config prev (encRecord hdr arrays)
      = (hdr.getD 21 0 % 4 + 1, flatUnits arrays, none)
    ∧ ∀ k, 23 ≤ k → k < (encRecord hdr arrays).length →
        ∃ us1 us2, us1 ++ us2 = flatUnits arrays ∧
          set_format_config prev ((encRecord hdr arrays).take k)
            = (hdr.getD 21 0 % 4 + 1, us1, some ()) := by
  have h21 : (21 : Nat) < hdr.length := by omega
  have hget21 : hdr.getD 21 0 < 256 := by
    rw [List.getD_eq_getElem hdr 0 h21]
    exact hb _ (List.getElem_mem h21)
  have hRlen : (encRecord hdr arrays).length
      = 23 + (encArrays arrays).length := by
    simp [encRecord]
    omega
  have hR : encRecord hdr arrays
      = (hdr ++ [arrays.length]) ++ (encArrays arrays ++ []) := by
    simp [encRecord]
  have hb21 : byteAt (encRecord hdr arrays) 21 = hdr.getD 21 0 := by
    rw [encRecord, byteAt_append_lt hdr _ 21 h21]
    unfold byteAt
    omega
  have hb22 : byteAt (encRecord hdr arrays) 22 = arrays.length := by
    rw [encRecord, show (22 : Nat) = hdr.length + 0 from by omega,
      byteAt_append_add]
    unfold byteAt
    rw [List.getD_cons_zero]
    omega
  constructor
  · rw [set_format_config, if_pos (by omega), hb21, hb22]
    have hpre : (23 : Nat) = (hdr ++ [arrays.length]).length := by
      simp
      omega
    have har := parseArrays_exact arrays (hdr ++ [arrays.length]) [] hw
    rw [← hR, ← hpre] at har
    simp only [har]
  · intro k hk23 hklen
    have hT : (encRecord hdr arrays).take k
        = (hdr ++ [arrays.length]) ++ (encArrays arrays).take (k - 23) := by
      rw [encRecord, List.take_append_eq_append_take]
      rw [List.take_of_length_le (by omega : hdr.length ≤ k)]
      rw [show k - hdr.length = (k - 23) + 1 from by omega, List.take_succ_cons]
      simp
    have ht' : k - 23 < (encArrays arrays).length := by omega
    have hTlen : ((encRecord hdr arrays).take k).length = k := by
      simp [List.length_take]
      omega
    have hTb21 : byteAt ((encRecord hdr arrays).take k) 21 = hdr.getD 21 0 := by
      rw [hT, byteAt_append_lt _ _ 21 (by simp; omega)]
      rw [byteAt_append_lt hdr _ 21 h21]
      unfold byteAt
      omega
    have hTb22 : byteAt ((encRecord hdr arrays).take k) 22 = arrays.length := by
      rw [hT, byteAt_append_lt _ _ 22 (by simp; omega)]
      rw [show (22 : Nat) = hdr.length + 0 from by omega, byteAt_append_add]
      unfold byteAt
      rw [List.getD_cons_zero]
      omega
    obtain ⟨us1, us2, hsplit, hrec⟩ :=
      parseArrays_trunc arrays (hdr ++ [arrays.length]) (k - 23) ht' hw
    refine ⟨us1, us2, hsplit, ?_⟩
    rw [set_format_config, if_pos (by omega), hTb21, hTb22]
    have hpre : (23 : Nat) = (hdr ++ [arrays.length]).length := by
      simp
      omega
    rw [← hpre] at hrec
    rw [hT]
    simp only [hrec]

/-- Concrete configuration record for the C1 witness (spec scenario A):
version 0, byte 21's low bits encode prefix size 3, one array holding
one 10-byte parameter-set NAL unit. -/
def c1hdr : List Nat := List.replicate 21 0 ++ [2]

def c1arrays : List (Nat × List (List Nat)) :=
  [(32, [[1, 2, 3, 4, 5, 6, 7, 8, 9, 10]])]

/-- Witness for C1: the scenario-A record parses to length-prefix size
3 and a single 10-byte NAL push. -/
theorem c1_config_record_parsing_witness :
    set_format_config 4 (encRecord c1hdr c1arrays)
      = (3, [[1, 2, 3, 4, 5, 6, 7, 8, 9, 10]], none) :=
  ((c1_config_record_parsing 4 c1hdr c1arrays (by decide) (by decide) (by decide)
    (by decide)).1).trans (by decide)

end Libde265Dec

namespace Libde265Dec

/-- C3 counterexample: a codec-data buffer beginning 0x00 0x00 0x00
followed by a valid configuration record (it parses with no error) is
declared RawByteStream by the source's detection condition
`data[0] || data[1] || data[2] > 1`, not Packetized as the claim's
scenario B asserts. -/
theorem c3_startcode_counterexample :
    detectMode cfgStartcodeZero = DecMode.raw
    ∧ set_format_config 4 cfgStartcodeZero = (3, [], none)
    ∧ DecMode.raw ≠ DecMode.packetized := by
  refine ⟨?_, ?_, by decide⟩
  · decide
  · decide

end Libde265Dec
